import Mathlib

deriving instance DecidableEq for Except

/-!
Verification of the OUCH order-message codec (src/ouchBinary.py).

The source script builds one hard-wired 32-byte message by byte concatenation
and unpacks it with struct.unpack(">c14sc4s8s4s"), decoding the four text
fields with Python bytes.decode() and stripping order_token and stock_symbol
with Python str.strip().  String-valued fields are embedded as the UTF-8
bytes of the Python str; shares and price as integers.
-/

namespace OUCH

/-- An OUCH order message.  The four string fields hold the UTF-8 bytes of
the corresponding Python str (for ASCII content, one byte per character). -/
structure OrderMessage where
  message_type : List Nat
  order_token : List Nat
  buy_sell : List Nat
  shares : Int
  stock_symbol : List Nat
  price : Int
  deriving DecidableEq, Repr

/-- Errors of the encode direction, from spec section 7. -/
inductive EncodeError where
  | FieldTooLong
  | ValueOutOfRange
  | InvalidCharacterField
  deriving DecidableEq, Repr

/-- Errors of the decode direction, from spec section 7. -/
inductive DecodeError where
  | LengthMismatch
  | InvalidEncoding
  deriving DecidableEq, Repr

/-- Parse one UTF-8 encoded code point from the front of a byte list: the
code point and the remaining bytes, or none for a malformed head.  Strict,
as Python bytes.decode(): stray continuation bytes, overlong forms (lead
bytes 0xC0/0xC1, short values after 0xE0/0xF0), surrogates (0xED with a
second byte at 0xA0 or above) and values above 0x10FFFF (lead bytes past
0xF4, or 0xF4 with a second byte at 0x90 or above) are rejected. -/
def utf8Step : List Nat → Option (Nat × List Nat)
  | [] => none
  | b :: rest =>
    if b < 0x80 then some (b, rest)
    else if b < 0xC2 then none
    else if b < 0xE0 then
      let b1 := rest.getD 0 0
      if 1 ≤ rest.length ∧ 0x80 ≤ b1 ∧ b1 < 0xC0 then
        some ((b - 0xC0) * 64 + (b1 - 0x80), rest.drop 1)
      else none
    else if b < 0xF0 then
      let b1 := rest.getD 0 0
      let b2 := rest.getD 1 0
      if 2 ≤ rest.length ∧
          (if b = 0xE0 then 0xA0 ≤ b1 ∧ b1 < 0xC0
           else if b = 0xED then 0x80 ≤ b1 ∧ b1 < 0xA0
           else 0x80 ≤ b1 ∧ b1 < 0xC0) ∧ 0x80 ≤ b2 ∧ b2 < 0xC0 then
        some ((b - 0xE0) * 4096 + (b1 - 0x80) * 64 + (b2 - 0x80), rest.drop 2)
      else none
    else if b < 0xF5 then
      let b1 := rest.getD 0 0
      let b2 := rest.getD 1 0
      let b3 := rest.getD 2 0
      if 3 ≤ rest.length ∧
          (if b = 0xF0 then 0x90 ≤ b1 ∧ b1 < 0xC0
           else if b = 0xF4 then 0x80 ≤ b1 ∧ b1 < 0x90
           else 0x80 ≤ b1 ∧ b1 < 0xC0) ∧
          0x80 ≤ b2 ∧ b2 < 0xC0 ∧ 0x80 ≤ b3 ∧ b3 < 0xC0 then
        some ((b - 0xF0) * 262144 + (b1 - 0x80) * 4096 +
          (b2 - 0x80) * 64 + (b3 - 0x80), rest.drop 3)
      else none
    else none

/-- Fuel-driven loop applying utf8Step until the input is exhausted.  Each
step consumes at least one byte, so fuel equal to the input length is
always enough; the fuel only makes the recursion structural. -/
def utf8DecodeF : Nat → List Nat → Option (List Nat)
  | _, [] => some []
  | 0, _ :: _ => none
  | fuel + 1, b :: rest =>
    match utf8Step (b :: rest) with
    | some (c, rest2) => (utf8DecodeF fuel rest2).map (fun cs => c :: cs)
    | none => none

/-- Strict UTF-8 decoding of a byte list into a list of code points, as
Python bytes.decode() performs it. -/
def utf8Decode (l : List Nat) : Option (List Nat) := utf8DecodeF l.length l

/-- UTF-8 encoding of one code point. -/
def utf8EncodeChar (c : Nat) : List Nat :=
  if c < 0x80 then [c]
  else if c < 0x800 then [0xC0 + c / 64, 0x80 + c % 64]
  else if c < 0x10000 then [0xE0 + c / 4096, 0x80 + c / 64 % 64, 0x80 + c % 64]
  else [0xF0 + c / 262144, 0x80 + c / 4096 % 64, 0x80 + c / 64 % 64, 0x80 + c % 64]

/-- UTF-8 encoding of a code-point list. -/
def utf8Encode (cs : List Nat) : List Nat := (cs.map utf8EncodeChar).flatten

/-- Code points Python str.strip() treats as whitespace (Py_UNICODE_ISSPACE):
the ASCII range 0x09-0x0D and 0x1C-0x20, plus the Unicode space characters.
The null character 0x00 is not among them. -/
def pyIsSpace (c : Nat) : Bool :=
  (0x09 ≤ c && c ≤ 0x0D) || (0x1C ≤ c && c ≤ 0x20) || c == 0x85 || c == 0xA0 ||
  c == 0x1680 || (0x2000 ≤ c && c ≤ 0x200A) || c == 0x2028 || c == 0x2029 ||
  c == 0x202F || c == 0x205F || c == 0x3000

/-- Drop leading Python-whitespace code points. -/
def lstripCp : List Nat → List Nat
  | [] => []
  | c :: cs => if pyIsSpace c then lstripCp cs else c :: cs

/-- Drop trailing Python-whitespace code points. -/
def rstripCp (cs : List Nat) : List Nat := (lstripCp cs.reverse).reverse

/-- Python str.strip(): whitespace removed from both ends. -/
def stripCp (cs : List Nat) : List Nat := lstripCp (rstripCp cs)

/-- Python str.strip() lifted to the UTF-8 byte strings we store: decode the
bytes, strip the code points, re-encode.  Bytes that are not valid UTF-8 are
returned unchanged; this case never arises from a successful decode. -/
def pyStrip (bs : List Nat) : List Nat :=
  match utf8Decode bs with
  | some cs => utf8Encode (stripCp cs)
  | none => bs

/-- The 4-byte big-endian representation of n, as struct.pack(">I", n)
produces for in-range n (src/ouchBinary.py lines 7 and 9). -/
def toBytesBE4 (n : Nat) : List Nat :=
  [n / 16777216 % 256, n / 65536 % 256, n / 256 % 256, n % 256]

/-- Big-endian recombination of a byte list, as int.from_bytes(·, "big")
(src/ouchBinary.py lines 29 and 35). -/
def fromBytesBE (l : List Nat) : Nat := l.foldl (fun a b => a * 256 + b) 0

/-- Right-pad a byte string with ASCII spaces to width w (spec section 4.1:
left-justified space padding; the source holds its string fields already
padded, e.g. the literal b"AAPL    " on line 8). -/
def padRight (s : List Nat) (w : Nat) : List Nat :=
  s ++ List.replicate (w - s.length) 0x20

/-- Largest unsigned 32-bit value, the bound struct.pack(">I", ·) enforces. -/
def UINT32_MAX : Int := 4294967295

/-- The 32-byte wire image of a message: the six fields concatenated in
table order, exactly the concatenation on src/ouchBinary.py line 12. -/
def wire (m : OrderMessage) : List Nat :=
  m.message_type ++ padRight m.order_token 14 ++ m.buy_sell ++
    toBytesBE4 m.shares.toNat ++ padRight m.stock_symbol 8 ++
    toBytesBE4 m.price.toNat

/-- Modelled from the spec: the source script only builds one hard-wired
message by concatenation (src/ouchBinary.py line 12) with shares and price
packed by struct.pack(">I", ·) (lines 7, 9), which fails on values outside
the unsigned 32-bit range.  The general encode function, its space padding
and its FieldTooLong / InvalidCharacterField validation are not in src/ and
follow spec sections 4.1 and 7 (the spec fixes no order among the checks;
they are performed in the order the spec lists the error conditions). -/
def encode (m : OrderMessage) : Except EncodeError (List Nat) :=
  if 14 < m.order_token.length ∨ 8 < m.stock_symbol.length then
    .error .FieldTooLong
  else if m.shares < 0 ∨ UINT32_MAX < m.shares ∨ m.price < 0 ∨ UINT32_MAX < m.price then
    .error .ValueOutOfRange
  else if ¬(m.message_type.length = 1 ∧ m.buy_sell.length = 1) then
    .error .InvalidCharacterField
  else
    .ok (wire m)

/-- Decoding per src/ouchBinary.py lines 17-36: struct.unpack with format
">c14sc4s8s4s" fails unless the input is exactly 32 bytes (typed here as
DecodeError.LengthMismatch per spec section 7); the four text fields are
then decoded as Python bytes.decode() does (UTF-8, failure typed as
DecodeError.InvalidEncoding); order_token and stock_symbol are stripped
with str.strip() (lines 23 and 32); shares and price are rebuilt from
big-endian bytes (lines 29 and 35). -/
def decode (b : List Nat) : Except DecodeError OrderMessage :=
  if b.length ≠ 32 then .error .LengthMismatch
  else if (utf8Decode (b.take 1)).isSome ∧ (utf8Decode ((b.drop 1).take 14)).isSome ∧
      (utf8Decode ((b.drop 15).take 1)).isSome ∧ (utf8Decode ((b.drop 20).take 8)).isSome then
    .ok { message_type := b.take 1
          order_token := pyStrip ((b.drop 1).take 14)
          buy_sell := (b.drop 15).take 1
          shares := Int.ofNat (fromBytesBE ((b.drop 16).take 4))
          stock_symbol := pyStrip ((b.drop 20).take 8)
          price := Int.ofNat (fromBytesBE ((b.drop 28).take 4)) }
  else .error .InvalidEncoding

/-- A byte string of ASCII characters only. -/
def asciiOnly (s : List Nat) : Prop := ∀ c ∈ s, c < 128

instance (s : List Nat) : Decidable (asciiOnly s) := by
  unfold asciiOnly; infer_instance

/-- The encode constraints of spec section 4.1, together with the
data-model requirement (spec section 3) that the string fields are ASCII. -/
def validMsg (m : OrderMessage) : Prop :=
  m.message_type.length = 1 ∧ asciiOnly m.message_type ∧
  m.order_token.length ≤ 14 ∧ asciiOnly m.order_token ∧
  m.buy_sell.length = 1 ∧ asciiOnly m.buy_sell ∧
  m.stock_symbol.length ≤ 8 ∧ asciiOnly m.stock_symbol ∧
  0 ≤ m.shares ∧ m.shares ≤ UINT32_MAX ∧ 0 ≤ m.price ∧ m.price ≤ UINT32_MAX

instance (m : OrderMessage) : Decidable (validMsg m) := by
  unfold validMsg; infer_instance

/-- Exact-arithmetic model of the display formatting on src/ouchBinary.py
line 36, the f-string of price / 100 with format .2f: integer part, a
point, and two decimal digits.  It agrees with the float rendering
whenever the division by 100 is exact in binary floating point, as it is
at the value the spec checks. -/
def formatPrice (p : Nat) : String :=
  toString (p / 100) ++ "." ++ toString (p % 100 / 10) ++ toString (p % 100 % 10)

/-- Equality of order messages after padding normalization: the string
fields order_token and stock_symbol are compared post-strip. -/
def eqModStrip (a b : OrderMessage) : Prop :=
  a.message_type = b.message_type ∧ pyStrip a.order_token = pyStrip b.order_token ∧
  a.buy_sell = b.buy_sell ∧ a.shares = b.shares ∧
  pyStrip a.stock_symbol = pyStrip b.stock_symbol ∧ a.price = b.price

/-- All four text fields of a 32-byte input are decodable as UTF-8, the
condition under which Python bytes.decode() succeeds on each of them. -/
def textFieldsDecodable (b : List Nat) : Prop :=
  (utf8Decode (b.take 1)).isSome ∧ (utf8Decode ((b.drop 1).take 14)).isSome ∧
  (utf8Decode ((b.drop 15).take 1)).isSome ∧ (utf8Decode ((b.drop 20).take 8)).isSome

/-- The concrete message of the source script: 'O', "ABC12345678901", 'B',
100 shares, "AAPL", price 15000 cents, as ASCII byte values. -/
def exMsg : OrderMessage :=
  { message_type := [0x4F]
    order_token := [65, 66, 67, 49, 50, 51, 52, 53, 54, 55, 56, 57, 48, 49]
    buy_sell := [0x42]
    shares := 100
    stock_symbol := [65, 65, 80, 76]
    price := 15000 }

/-- The 32 wire bytes the source script prints for exMsg. -/
def exBytes : List Nat :=
  [0x4F, 65, 66, 67, 49, 50, 51, 52, 53, 54, 55, 56, 57, 48, 49, 0x42,
   0, 0, 0, 100, 65, 65, 80, 76, 32, 32, 32, 32, 0, 0, 0x3A, 0x98]

/-- A 32-byte input whose stock_symbol field is "AAPL" followed by four
null bytes instead of spaces. -/
def nulPadBytes : List Nat :=
  [0x4F, 65, 66, 67, 49, 50, 51, 52, 53, 54, 55, 56, 57, 48, 49, 0x42,
   0, 0, 0, 100, 65, 65, 80, 76, 0, 0, 0, 0, 0, 0, 0x3A, 0x98]

/-- What decode returns on nulPadBytes: the null bytes survive str.strip(). -/
def nulPadMsg : OrderMessage :=
  { message_type := [0x4F]
    order_token := [65, 66, 67, 49, 50, 51, 52, 53, 54, 55, 56, 57, 48, 49]
    buy_sell := [0x42]
    shares := 100
    stock_symbol := [65, 65, 80, 76, 0, 0, 0, 0]
    price := 15000 }

/-- A valid message whose order_token begins with an ASCII space. -/
def spMsg : OrderMessage :=
  { message_type := [0x4F], order_token := [0x20, 65], buy_sell := [0x42],
    shares := 1, stock_symbol := [65], price := 1 }

/-- The wire bytes of spMsg. -/
def spBytes : List Nat :=
  [0x4F, 0x20, 65, 32, 32, 32, 32, 32, 32, 32, 32, 32, 32, 32, 32, 0x42,
   0, 0, 0, 1, 65, 32, 32, 32, 32, 32, 32, 32, 0, 0, 0, 1]

/-- What decode returns on spBytes: the leading space is stripped too. -/
def spDecoded : OrderMessage :=
  { message_type := [0x4F], order_token := [65], buy_sell := [0x42],
    shares := 1, stock_symbol := [65], price := 1 }

/-- The wire bytes of spDecoded, which differ from spBytes. -/
def spBytes2 : List Nat :=
  [0x4F, 65, 32, 32, 32, 32, 32, 32, 32, 32, 32, 32, 32, 32, 32, 0x42,
   0, 0, 0, 1, 65, 32, 32, 32, 32, 32, 32, 32, 0, 0, 0, 1]

/-- A valid message whose order_token is a single ASCII space. -/
def wsMsg : OrderMessage :=
  { message_type := [0x4F], order_token := [0x20], buy_sell := [0x42],
    shares := 1, stock_symbol := [65], price := 1 }

/-- The wire bytes of wsMsg: its order_token field is 14 spaces. -/
def wsBytes : List Nat :=
  [0x4F, 32, 32, 32, 32, 32, 32, 32, 32, 32, 32, 32, 32, 32, 32, 0x42,
   0, 0, 0, 1, 65, 32, 32, 32, 32, 32, 32, 32, 0, 0, 0, 1]

/-- What decode returns on wsBytes: the all-space token strips to empty. -/
def wsDecoded : OrderMessage :=
  { message_type := [0x4F], order_token := [], buy_sell := [0x42],
    shares := 1, stock_symbol := [65], price := 1 }

/-- A message whose order_token has 15 characters, one over the width. -/
def longTokMsg : OrderMessage :=
  { message_type := [0x4F], order_token := List.replicate 15 65, buy_sell := [0x42],
    shares := 1, stock_symbol := [65], price := 1 }

/-- A message whose shares value is negative. -/
def negSharesMsg : OrderMessage :=
  { message_type := [0x4F], order_token := [65], buy_sell := [0x42],
    shares := -1, stock_symbol := [65], price := 1 }

theorem fromBytesBE_toBytesBE4 (n : Nat) (h : n < 4294967296) :
    fromBytesBE (toBytesBE4 n) = n := by
  simp only [toBytesBE4, fromBytesBE, List.foldl]
  omega

theorem toBytesBE4_length (n : Nat) : (toBytesBE4 n).length = 4 := rfl

theorem padRight_length (s : List Nat) (w : Nat) (h : s.length ≤ w) :
    (padRight s w).length = w := by
  simp only [padRight, List.length_append, List.length_replicate]
  omega

theorem asciiOnly_cons (c : Nat) (s : List Nat) (h : asciiOnly (c :: s)) :
    c < 128 ∧ asciiOnly s :=
  ⟨h c (List.mem_cons_self c s), fun x hx => h x (List.mem_cons_of_mem c hx)⟩

theorem utf8Step_lt (c : Nat) (cs : List Nat) (h : c < 0x80) :
    utf8Step (c :: cs) = some (c, cs) := by
  simp [utf8Step, h]

theorem utf8Decode_cons_lt (c : Nat) (cs : List Nat) (h : c < 0x80) :
    utf8Decode (c :: cs) = (utf8Decode cs).map (fun l => c :: l) := by
  show utf8DecodeF (cs.length + 1) (c :: cs) = (utf8Decode cs).map (fun l => c :: l)
  rw [utf8DecodeF, utf8Step_lt c cs h]
  rfl

theorem utf8Decode_ascii (s : List Nat) (h : asciiOnly s) : utf8Decode s = some s := by
  induction s with
  | nil => rfl
  | cons c cs ih =>
    obtain ⟨hc, hcs⟩ := asciiOnly_cons c cs h
    rw [utf8Decode_cons_lt c cs hc, ih hcs]
    rfl

theorem utf8EncodeChar_ascii (c : Nat) (h : c < 128) : utf8EncodeChar c = [c] := by
  simp [utf8EncodeChar, h]

theorem utf8Encode_cons (c : Nat) (cs : List Nat) :
    utf8Encode (c :: cs) = utf8EncodeChar c ++ utf8Encode cs := by
  simp [utf8Encode]

theorem utf8Encode_ascii (s : List Nat) (h : asciiOnly s) : utf8Encode s = s := by
  induction s with
  | nil => rfl
  | cons c cs ih =>
    obtain ⟨hc, hcs⟩ := asciiOnly_cons c cs h
    rw [utf8Encode_cons, utf8EncodeChar_ascii c hc, ih hcs]
    rfl

theorem asciiOnly_lstrip (s : List Nat) (h : asciiOnly s) : asciiOnly (lstripCp s) := by
  induction s with
  | nil => exact h
  | cons c cs ih =>
    obtain ⟨hc, hcs⟩ := asciiOnly_cons c cs h
    unfold lstripCp
    by_cases hsp : pyIsSpace c
    · simp [hsp]; exact ih hcs
    · simp [hsp]; exact h

theorem asciiOnly_reverse (s : List Nat) (h : asciiOnly s) : asciiOnly s.reverse := by
  intro c hc
  exact h c (List.mem_reverse.mp hc)

theorem asciiOnly_rstrip (s : List Nat) (h : asciiOnly s) : asciiOnly (rstripCp s) :=
  asciiOnly_reverse _ (asciiOnly_lstrip _ (asciiOnly_reverse _ h))

theorem asciiOnly_strip (s : List Nat) (h : asciiOnly s) : asciiOnly (stripCp s) :=
  asciiOnly_lstrip _ (asciiOnly_rstrip _ h)

theorem asciiOnly_padRight (s : List Nat) (w : Nat) (h : asciiOnly s) :
    asciiOnly (padRight s w) := by
  intro c hc
  rcases List.mem_append.mp hc with h1 | h2
  · exact h c h1
  · rw [List.eq_of_mem_replicate h2]; norm_num

theorem pyStrip_ascii (s : List Nat) (h : asciiOnly s) : pyStrip s = stripCp s := by
  unfold pyStrip
  rw [utf8Decode_ascii s h]
  exact utf8Encode_ascii _ (asciiOnly_strip s h)

theorem lstripCp_cons (c : Nat) (cs : List Nat) :
    lstripCp (c :: cs) = if pyIsSpace c then lstripCp cs else c :: cs := rfl

theorem pyIsSpace_space : pyIsSpace 0x20 = true := by decide

theorem lstrip_spaces_append (n : Nat) (t : List Nat) :
    lstripCp (List.replicate n 0x20 ++ t) = lstripCp t := by
  induction n with
  | zero => rfl
  | succ k ih =>
    rw [List.replicate_succ, List.cons_append, lstripCp_cons, if_pos pyIsSpace_space, ih]

theorem rstrip_append_spaces (s : List Nat) (n : Nat) :
    rstripCp (s ++ List.replicate n 0x20) = rstripCp s := by
  unfold rstripCp
  rw [List.reverse_append, List.reverse_replicate, lstrip_spaces_append]

theorem stripCp_append_spaces (s : List Nat) (n : Nat) :
    stripCp (s ++ List.replicate n 0x20) = stripCp s := by
  unfold stripCp
  rw [rstrip_append_spaces]

theorem stripCp_padRight (s : List Nat) (w : Nat) :
    stripCp (padRight s w) = stripCp s := by
  unfold padRight
  exact stripCp_append_spaces s _

theorem lstrip_lstrip (s : List Nat) : lstripCp (lstripCp s) = lstripCp s := by
  induction s with
  | nil => rfl
  | cons c cs ih =>
    rw [lstripCp_cons]
    by_cases hsp : pyIsSpace c
    · rw [if_pos hsp]; exact ih
    · rw [if_neg hsp, lstripCp_cons, if_neg hsp]

theorem lstrip_length_le (s : List Nat) : (lstripCp s).length ≤ s.length := by
  induction s with
  | nil => exact Nat.le_refl 0
  | cons c cs ih =>
    rw [lstripCp_cons]
    by_cases hsp : pyIsSpace c
    · rw [if_pos hsp]; simp; omega
    · rw [if_neg hsp]

theorem head?_lstrip (s : List Nat) : ∀ c, (lstripCp s).head? = some c →
    pyIsSpace c = false := by
  induction s with
  | nil => intro c h; simp [lstripCp] at h
  | cons d ds ih =>
    intro c h
    rw [lstripCp_cons] at h
    by_cases hsp : pyIsSpace d
    · rw [if_pos hsp] at h; exact ih c h
    · rw [if_neg hsp] at h
      simp only [List.head?_cons, Option.some_inj] at h
      rw [← h]
      exact Bool.not_eq_true _ |>.mp hsp

theorem getLast?_lstrip (s : List Nat) :
    lstripCp s = [] ∨ (lstripCp s).getLast? = s.getLast? := by
  induction s with
  | nil => exact Or.inl rfl
  | cons c cs ih =>
    rw [lstripCp_cons]
    by_cases hsp : pyIsSpace c
    · rw [if_pos hsp]
      rcases ih with h0 | h1
      · exact Or.inl h0
      · cases cs with
        | nil => exact Or.inl rfl
        | cons d ds =>
          right
          rw [h1, List.getLast?_cons_cons]
    · rw [if_neg hsp]
      exact Or.inr rfl

theorem rstrip_eq_self_of_last (s : List Nat)
    (h : ∀ c, s.getLast? = some c → pyIsSpace c = false) : rstripCp s = s := by
  unfold rstripCp
  cases hrev : s.reverse with
  | nil =>
    have hs : s = [] := by
      have := congrArg List.reverse hrev
      simpa using this
    simp [hs, lstripCp]
  | cons c t =>
    have hc : s.getLast? = some c := by
      rw [← List.head?_reverse, hrev]; rfl
    have hsp : pyIsSpace c = false := h c hc
    have hs : s = t.reverse ++ [c] := by
      have := congrArg List.reverse hrev
      simpa using this
    rw [lstripCp_cons, if_neg (by simp [hsp]), hs]
    simp

theorem getLast?_rstrip (s : List Nat) (c : Nat)
    (h : (rstripCp s).getLast? = some c) : pyIsSpace c = false := by
  unfold rstripCp at h
  rw [List.getLast?_reverse] at h
  exact head?_lstrip _ c h

theorem stripCp_idem (s : List Nat) : stripCp (stripCp s) = stripCp s := by
  have hr : rstripCp (lstripCp (rstripCp s)) = lstripCp (rstripCp s) := by
    apply rstrip_eq_self_of_last
    intro c hc
    rcases getLast?_lstrip (rstripCp s) with h0 | h1
    · rw [h0] at hc; simp at hc
    · rw [h1] at hc
      exact getLast?_rstrip s c hc
  show lstripCp (rstripCp (lstripCp (rstripCp s))) = lstripCp (rstripCp s)
  rw [hr, lstrip_lstrip]

theorem lstrip_append (a b : List Nat) :
    lstripCp (a ++ b) = if lstripCp a = [] then lstripCp b else lstripCp a ++ b := by
  induction a with
  | nil => rw [List.nil_append, show lstripCp ([] : List Nat) = [] from rfl, if_pos rfl]
  | cons c cs ih =>
    rw [List.cons_append, lstripCp_cons, lstripCp_cons]
    by_cases hsp : pyIsSpace c
    · rw [if_pos hsp, if_pos hsp]
      exact ih
    · rw [if_neg hsp, if_neg hsp, if_neg (List.cons_ne_nil c cs), List.cons_append]

theorem rstrip_cons_space (t : List Nat) (h : rstripCp (0x20 :: t) ≠ []) :
    rstripCp (0x20 :: t) = 0x20 :: rstripCp t := by
  unfold rstripCp at h ⊢
  rw [show (0x20 :: t).reverse = t.reverse ++ [0x20] by simp] at h ⊢
  rw [lstrip_append] at h ⊢
  by_cases h0 : lstripCp t.reverse = []
  · rw [if_pos h0] at h
    rw [show lstripCp [0x20] = [] by rw [lstripCp_cons, if_pos pyIsSpace_space]; rfl] at h
    simp at h
  · rw [if_neg h0] at h ⊢
    simp

theorem strip_ne_rstrip_of_head_space (t : List Nat) (hr : rstripCp (0x20 :: t) ≠ []) :
    stripCp (0x20 :: t) ≠ rstripCp (0x20 :: t) := by
  rw [show stripCp (0x20 :: t) = lstripCp (rstripCp (0x20 :: t)) from rfl]
  rw [rstrip_cons_space t hr]
  rw [lstripCp_cons, if_pos pyIsSpace_space]
  intro heq
  have hlen := congrArg List.length heq
  have hle := lstrip_length_le (rstripCp t)
  simp only [List.length_cons] at hlen
  omega

theorem slice6 (a b c d e f : List Nat)
    (ha : a.length = 1) (hb : b.length = 14) (hc : c.length = 1)
    (hd : d.length = 4) (he : e.length = 8) (hf : f.length = 4) :
    (a ++ b ++ c ++ d ++ e ++ f).length = 32 ∧
    (a ++ b ++ c ++ d ++ e ++ f).take 1 = a ∧
    ((a ++ b ++ c ++ d ++ e ++ f).drop 1).take 14 = b ∧
    ((a ++ b ++ c ++ d ++ e ++ f).drop 15).take 1 = c ∧
    ((a ++ b ++ c ++ d ++ e ++ f).drop 16).take 4 = d ∧
    ((a ++ b ++ c ++ d ++ e ++ f).drop 20).take 8 = e ∧
    ((a ++ b ++ c ++ d ++ e ++ f).drop 28).take 4 = f := by
  have hassoc : a ++ b ++ c ++ d ++ e ++ f = a ++ (b ++ (c ++ (d ++ (e ++ f)))) := by
    simp [List.append_assoc]
  rw [hassoc]
  have k1 : (a ++ (b ++ (c ++ (d ++ (e ++ f))))).drop 1 = b ++ (c ++ (d ++ (e ++ f))) :=
    List.drop_left' ha
  have k15 : (a ++ (b ++ (c ++ (d ++ (e ++ f))))).drop 15 = c ++ (d ++ (e ++ f)) := by
    rw [show (15 : Nat) = 1 + 14 by norm_num, ← List.drop_drop, k1, List.drop_left' hb]
  have k16 : (a ++ (b ++ (c ++ (d ++ (e ++ f))))).drop 16 = d ++ (e ++ f) := by
    rw [show (16 : Nat) = 15 + 1 by norm_num, ← List.drop_drop, k15, List.drop_left' hc]
  have k20 : (a ++ (b ++ (c ++ (d ++ (e ++ f))))).drop 20 = e ++ f := by
    rw [show (20 : Nat) = 16 + 4 by norm_num, ← List.drop_drop, k16, List.drop_left' hd]
  have k28 : (a ++ (b ++ (c ++ (d ++ (e ++ f))))).drop 28 = f := by
    rw [show (28 : Nat) = 20 + 8 by norm_num, ← List.drop_drop, k20, List.drop_left' he]
  refine ⟨?_, ?_, ?_, ?_, ?_, ?_, ?_⟩
  · simp [List.length_append, ha, hb, hc, hd, he, hf]
  · exact List.take_left' ha
  · rw [k1]; exact List.take_left' hb
  · rw [k15]; exact List.take_left' hc
  · rw [k16]; exact List.take_left' hd
  · rw [k20]; exact List.take_left' he
  · rw [k28, ← hf, List.take_length]

theorem wire_parts (m : OrderMessage) (h : validMsg m) :
    (wire m).length = 32 ∧
    (wire m).take 1 = m.message_type ∧
    ((wire m).drop 1).take 14 = padRight m.order_token 14 ∧
    ((wire m).drop 15).take 1 = m.buy_sell ∧
    ((wire m).drop 16).take 4 = toBytesBE4 m.shares.toNat ∧
    ((wire m).drop 20).take 8 = padRight m.stock_symbol 8 ∧
    ((wire m).drop 28).take 4 = toBytesBE4 m.price.toNat := by
  obtain ⟨h1, _, h3, _, h5, _, h7, _, _, _, _, _⟩ := h
  exact slice6 _ _ _ _ _ _ h1 (padRight_length _ _ h3) h5 (toBytesBE4_length _)
    (padRight_length _ _ h7) (toBytesBE4_length _)

theorem encode_ok (m : OrderMessage) (h : validMsg m) : encode m = .ok (wire m) := by
  obtain ⟨h1, _, h3, _, h5, _, h7, _, h9, h10, h11, h12⟩ := h
  simp only [UINT32_MAX] at h10 h12
  unfold encode
  have c1 : ¬(14 < m.order_token.length ∨ 8 < m.stock_symbol.length) := by omega
  have c2 : ¬(m.shares < 0 ∨ UINT32_MAX < m.shares ∨ m.price < 0 ∨ UINT32_MAX < m.price) := by
    simp only [UINT32_MAX]
    omega
  have c3 : ¬¬(m.message_type.length = 1 ∧ m.buy_sell.length = 1) := not_not_intro ⟨h1, h5⟩
  rw [if_neg c1, if_neg c2, if_neg c3]

theorem decode_wire (m : OrderMessage) (h : validMsg m) :
    decode (wire m) = .ok
      { message_type := m.message_type
        order_token := stripCp m.order_token
        buy_sell := m.buy_sell
        shares := m.shares
        stock_symbol := stripCp m.stock_symbol
        price := m.price } := by
  obtain ⟨W, T0, T1, T2, T3, T4, T5⟩ := wire_parts m h
  obtain ⟨h1, h2, h3, h4, h5, h6, h7, h8, h9, h10, h11, h12⟩ := h
  unfold decode
  rw [if_neg (not_not_intro W), T0, T1, T2, T3, T4, T5]
  have v0 : (utf8Decode m.message_type).isSome := by rw [utf8Decode_ascii _ h2]; rfl
  have v1 : (utf8Decode (padRight m.order_token 14)).isSome := by
    rw [utf8Decode_ascii _ (asciiOnly_padRight _ _ h4)]; rfl
  have v2 : (utf8Decode m.buy_sell).isSome := by rw [utf8Decode_ascii _ h6]; rfl
  have v4 : (utf8Decode (padRight m.stock_symbol 8)).isSome := by
    rw [utf8Decode_ascii _ (asciiOnly_padRight _ _ h8)]; rfl
  rw [if_pos ⟨v0, v1, v2, v4⟩]
  have e1 : pyStrip (padRight m.order_token 14) = stripCp m.order_token := by
    rw [pyStrip_ascii _ (asciiOnly_padRight _ _ h4), stripCp_padRight]
  have e4 : pyStrip (padRight m.stock_symbol 8) = stripCp m.stock_symbol := by
    rw [pyStrip_ascii _ (asciiOnly_padRight _ _ h8), stripCp_padRight]
  have ns : m.shares.toNat < 4294967296 := by simp only [UINT32_MAX] at h10; omega
  have np : m.price.toNat < 4294967296 := by simp only [UINT32_MAX] at h12; omega
  have e3 : Int.ofNat (fromBytesBE (toBytesBE4 m.shares.toNat)) = m.shares := by
    rw [fromBytesBE_toBytesBE4 _ ns]
    exact Int.toNat_of_nonneg h9
  have e5 : Int.ofNat (fromBytesBE (toBytesBE4 m.price.toNat)) = m.price := by
    rw [fromBytesBE_toBytesBE4 _ np]
    exact Int.toNat_of_nonneg h11
  rw [e1, e4, e3, e5]

/-- C1: for every OrderMessage satisfying the encode constraints (one ASCII
character message_type and buy_sell_indicator, order_token at most 14 and
stock_symbol at most 8 ASCII characters, shares and price unsigned 32-bit),
decoding the bytes produced by encoding it yields a message equal to the
original after string fields are compared post-strip. -/
theorem C1_round_trip (m : OrderMessage) (h : validMsg m) :
    ∃ bs m2, encode m = .ok bs ∧ decode bs = .ok m2 ∧ eqModStrip m2 m := by
  refine ⟨wire m, _, encode_ok m h, decode_wire m h, ?_⟩
  obtain ⟨h1, h2, h3, h4, h5, h6, h7, h8, _, _, _, _⟩ := h
  refine ⟨rfl, ?_, rfl, rfl, ?_, rfl⟩
  · show pyStrip (stripCp m.order_token) = pyStrip m.order_token
    rw [pyStrip_ascii _ (asciiOnly_strip _ h4), pyStrip_ascii _ h4, stripCp_idem]
  · show pyStrip (stripCp m.stock_symbol) = pyStrip m.stock_symbol
    rw [pyStrip_ascii _ (asciiOnly_strip _ h8), pyStrip_ascii _ h8, stripCp_idem]

theorem C1_round_trip_witness :
    validMsg exMsg ∧
    (∃ bs m2, encode exMsg = .ok bs ∧ decode bs = .ok m2 ∧ eqModStrip m2 exMsg) :=
  ⟨by decide, C1_round_trip exMsg (by decide)⟩

/-- C2: encoding message_type 'O', order_token "ABC12345678901",
buy_sell_indicator 'B', shares 100, stock_symbol "AAPL", price 15000
produces exactly the 32 bytes 0x4F, "ABC12345678901", 0x42, 00 00 00 64,
"AAPL    ", 00 00 3A 98; decoding that sequence recovers exactly those
field values; and rendering price / 100 with two decimal digits yields
the string "150.00". -/
theorem C2_concrete_example :
    encode exMsg = .ok [0x4F, 65, 66, 67, 49, 50, 51, 52, 53, 54, 55, 56, 57, 48, 49,
      0x42, 0, 0, 0, 0x64, 65, 65, 80, 76, 32, 32, 32, 32, 0, 0, 0x3A, 0x98] ∧
    decode [0x4F, 65, 66, 67, 49, 50, 51, 52, 53, 54, 55, 56, 57, 48, 49,
      0x42, 0, 0, 0, 0x64, 65, 65, 80, 76, 32, 32, 32, 32, 0, 0, 0x3A, 0x98] = .ok exMsg ∧
    formatPrice 15000 = "150.00" :=
  ⟨by decide, by decide, rfl⟩

/-- C3: for every valid OrderMessage the encoded byte sequence has length
exactly 32, with the six fields concatenated in table order at offsets
0, 1, 15, 16, 20 and 28 with widths 1, 14, 1, 4, 8 and 4. -/
theorem C3_fixed_layout (m : OrderMessage) (h : validMsg m) :
    ∃ bs, encode m = .ok bs ∧ bs.length = 32 ∧
      bs.take 1 = m.message_type ∧
      (bs.drop 1).take 14 = padRight m.order_token 14 ∧
      (bs.drop 15).take 1 = m.buy_sell ∧
      (bs.drop 16).take 4 = toBytesBE4 m.shares.toNat ∧
      (bs.drop 20).take 8 = padRight m.stock_symbol 8 ∧
      (bs.drop 28).take 4 = toBytesBE4 m.price.toNat := by
  obtain ⟨W, T0, T1, T2, T3, T4, T5⟩ := wire_parts m h
  exact ⟨wire m, encode_ok m h, W, T0, T1, T2, T3, T4, T5⟩

theorem C3_fixed_layout_witness :
    validMsg exMsg ∧
    (∃ bs, encode exMsg = .ok bs ∧ bs.length = 32 ∧
      bs.take 1 = exMsg.message_type ∧
      (bs.drop 1).take 14 = padRight exMsg.order_token 14 ∧
      (bs.drop 15).take 1 = exMsg.buy_sell ∧
      (bs.drop 16).take 4 = toBytesBE4 exMsg.shares.toNat ∧
      (bs.drop 20).take 8 = padRight exMsg.stock_symbol 8 ∧
      (bs.drop 28).take 4 = toBytesBE4 exMsg.price.toNat) :=
  ⟨by decide, C3_fixed_layout exMsg (by decide)⟩

/-- C4: decoding any byte sequence whose length is not 32 fails with
LengthMismatch and returns no OrderMessage. -/
theorem C4_length_mismatch (b : List Nat) (h : b.length ≠ 32) :
    decode b = .error .LengthMismatch := by
  unfold decode
  rw [if_pos h]

theorem C4_length_mismatch_witness :
    ([] : List Nat).length ≠ 32 ∧ decode [] = .error .LengthMismatch :=
  ⟨by decide, C4_length_mismatch [] (by decide)⟩

/-- C5: encoding any OrderMessage whose order_token is longer than 14
characters or whose stock_symbol is longer than 8 characters fails with
FieldTooLong. -/
theorem C5_field_too_long (m : OrderMessage)
    (h : 14 < m.order_token.length ∨ 8 < m.stock_symbol.length) :
    encode m = .error .FieldTooLong := by
  unfold encode
  rw [if_pos h]

theorem C5_field_too_long_witness :
    (14 < longTokMsg.order_token.length ∨ 8 < longTokMsg.stock_symbol.length) ∧
    encode longTokMsg = .error .FieldTooLong :=
  ⟨by decide, C5_field_too_long longTokMsg (by decide)⟩

/-- C6: encoding any OrderMessage whose string fields are within their
widths but whose shares or price is negative or above 4294967295 fails
with ValueOutOfRange. -/
theorem C6_value_out_of_range (m : OrderMessage)
    (h1 : m.order_token.length ≤ 14) (h2 : m.stock_symbol.length ≤ 8)
    (h : m.shares < 0 ∨ UINT32_MAX < m.shares ∨ m.price < 0 ∨ UINT32_MAX < m.price) :
    encode m = .error .ValueOutOfRange := by
  unfold encode
  rw [if_neg (by omega), if_pos h]

theorem C6_value_out_of_range_witness :
    negSharesMsg.order_token.length ≤ 14 ∧ negSharesMsg.stock_symbol.length ≤ 8 ∧
    (negSharesMsg.shares < 0 ∨ UINT32_MAX < negSharesMsg.shares ∨
      negSharesMsg.price < 0 ∨ UINT32_MAX < negSharesMsg.price) ∧
    encode negSharesMsg = .error .ValueOutOfRange :=
  ⟨by decide, by decide, by decide,
    C6_value_out_of_range negSharesMsg (by decide) (by decide) (by decide)⟩

/-- C7: on every 32-byte input, decode fails with InvalidEncoding exactly
when one of the four text fields holds bytes that Python bytes.decode()
cannot decode (invalid UTF-8), and succeeds on every other 32-byte input. -/
theorem C7_text_decoding (b : List Nat) (h : b.length = 32) :
    (¬ textFieldsDecodable b → decode b = .error .InvalidEncoding) ∧
    (textFieldsDecodable b → ∃ m, decode b = .ok m) := by
  constructor
  · intro hv
    unfold textFieldsDecodable at hv
    unfold decode
    rw [if_neg (not_not_intro h), if_neg hv]
  · intro hv
    unfold textFieldsDecodable at hv
    unfold decode
    rw [if_neg (not_not_intro h), if_pos hv]
    exact ⟨_, rfl⟩

theorem C7_text_decoding_witness :
    exBytes.length = 32 ∧
    ((¬ textFieldsDecodable exBytes → decode exBytes = .error .InvalidEncoding) ∧
     (textFieldsDecodable exBytes → ∃ m, decode exBytes = .ok m)) :=
  ⟨by decide, C7_text_decoding exBytes (by decide)⟩

/-- C8 as stated is false: decoding a stock_symbol field of "AAPL" followed
by four null bytes keeps the null bytes, because Python str.strip() does not
treat the null character as whitespace; the decoded stock_symbol is not the
stripped "AAPL". -/
theorem C8_counterexample :
    decode nulPadBytes = .ok nulPadMsg ∧
    nulPadMsg.stock_symbol = [65, 65, 80, 76, 0, 0, 0, 0] ∧
    nulPadMsg.stock_symbol ≠ [65, 65, 80, 76] :=
  ⟨by decide, by decide, by decide⟩

/-- C8 amended: the decoded order_token and stock_symbol are the Python
strip of their raw field bytes: whitespace, in particular trailing ASCII
spaces, is removed, while trailing null bytes are preserved, not removed;
decoding a stock_symbol field of "AAPL    " yields "AAPL". -/
theorem C8_strip_behavior (b : List Nat) (m : OrderMessage) (h : b.length = 32)
    (hd : decode b = .ok m) :
    m.order_token = pyStrip ((b.drop 1).take 14) ∧
    m.stock_symbol = pyStrip ((b.drop 20).take 8) ∧
    pyStrip [65, 65, 80, 76, 32, 32, 32, 32] = [65, 65, 80, 76] ∧
    pyStrip [65, 65, 80, 76, 0, 0, 0, 0] = [65, 65, 80, 76, 0, 0, 0, 0] := by
  unfold decode at hd
  rw [if_neg (not_not_intro h)] at hd
  by_cases hv : (utf8Decode (b.take 1)).isSome ∧ (utf8Decode ((b.drop 1).take 14)).isSome ∧
      (utf8Decode ((b.drop 15).take 1)).isSome ∧ (utf8Decode ((b.drop 20).take 8)).isSome
  · rw [if_pos hv] at hd
    have hm := (Except.ok.injEq _ _).mp hd
    refine ⟨by rw [← hm], by rw [← hm], by decide, by decide⟩
  · rw [if_neg hv] at hd
    exact absurd hd (by simp)

theorem C8_strip_behavior_witness :
    nulPadBytes.length = 32 ∧ decode nulPadBytes = .ok nulPadMsg ∧
    (nulPadMsg.order_token = pyStrip ((nulPadBytes.drop 1).take 14) ∧
     nulPadMsg.stock_symbol = pyStrip ((nulPadBytes.drop 20).take 8) ∧
     pyStrip [65, 65, 80, 76, 32, 32, 32, 32] = [65, 65, 80, 76] ∧
     pyStrip [65, 65, 80, 76, 0, 0, 0, 0] = [65, 65, 80, 76, 0, 0, 0, 0]) :=
  ⟨by decide, by decide,
    C8_strip_behavior nulPadBytes nulPadMsg (by decide) (by decide)⟩

/-- C9 as stated is false: for the valid message spMsg, whose order_token
begins with an ASCII space, decode strips that space, so re-encoding the
decoded message yields different bytes than the first encoding. -/
theorem C9_counterexample :
    validMsg spMsg ∧ encode spMsg = .ok spBytes ∧ decode spBytes = .ok spDecoded ∧
    encode spDecoded = .ok spBytes2 ∧ spBytes2 ≠ spBytes :=
  ⟨by decide, by decide, by decide, by decide, by decide⟩

/-- C9 amended: for every valid OrderMessage whose order_token and
stock_symbol carry no leading or trailing whitespace, encoding the decode
of the encoding reproduces exactly the original bytes. -/
theorem C9_idempotent (m : OrderMessage) (h : validMsg m)
    (ht : stripCp m.order_token = m.order_token)
    (hs : stripCp m.stock_symbol = m.stock_symbol) :
    ∃ bs m2, encode m = .ok bs ∧ decode bs = .ok m2 ∧ encode m2 = .ok bs := by
  refine ⟨wire m, _, encode_ok m h, decode_wire m h, ?_⟩
  have hm : ({ message_type := m.message_type
               order_token := stripCp m.order_token
               buy_sell := m.buy_sell
               shares := m.shares
               stock_symbol := stripCp m.stock_symbol
               price := m.price } : OrderMessage) = m := by
    rw [ht, hs]
  rw [hm]
  exact encode_ok m h

theorem C9_idempotent_witness :
    validMsg exMsg ∧ stripCp exMsg.order_token = exMsg.order_token ∧
    stripCp exMsg.stock_symbol = exMsg.stock_symbol ∧
    (∃ bs m2, encode exMsg = .ok bs ∧ decode bs = .ok m2 ∧ encode m2 = .ok bs) :=
  ⟨by decide, by decide, by decide,
    C9_idempotent exMsg (by decide) (by decide) (by decide)⟩

/-- C10 as stated is false for whitespace-only fields: wsMsg is valid and
its order_token is a single space, so it begins with a space and is in the
claim's scope, yet the decoded order_token equals the rstrip-normalized
original (both are empty), so the claimed difference fails there. -/
theorem C10_counterexample :
    validMsg wsMsg ∧ wsMsg.order_token = [0x20] ∧
    encode wsMsg = .ok wsBytes ∧ decode wsBytes = .ok wsDecoded ∧
    wsDecoded.order_token = rstripCp wsMsg.order_token :=
  ⟨by decide, by decide, by decide, by decide, by decide⟩

/-- C10 amended: decode strips leading as well as trailing whitespace from
order_token and stock_symbol (the decoded fields are the full strip of the
originals); consequently, for every valid OrderMessage whose order_token,
respectively stock_symbol, begins with an ASCII space and does not consist
of whitespace only (its rstrip normalization is nonempty), the decoded
field differs from the original even after trailing-padding normalization
(rstrip). -/
theorem C10_strip_both_ends (m : OrderMessage) (h : validMsg m) :
    ∃ bs m2, encode m = .ok bs ∧ decode bs = .ok m2 ∧
      m2.order_token = stripCp m.order_token ∧
      m2.stock_symbol = stripCp m.stock_symbol ∧
      (∀ t, m.order_token = 0x20 :: t → rstripCp m.order_token ≠ [] →
        m2.order_token ≠ rstripCp m.order_token) ∧
      (∀ t, m.stock_symbol = 0x20 :: t → rstripCp m.stock_symbol ≠ [] →
        m2.stock_symbol ≠ rstripCp m.stock_symbol) := by
  refine ⟨wire m, _, encode_ok m h, decode_wire m h, rfl, rfl, ?_, ?_⟩
  · intro t ht hr
    show stripCp m.order_token ≠ rstripCp m.order_token
    rw [ht] at hr ⊢
    exact strip_ne_rstrip_of_head_space t hr
  · intro t ht hr
    show stripCp m.stock_symbol ≠ rstripCp m.stock_symbol
    rw [ht] at hr ⊢
    exact strip_ne_rstrip_of_head_space t hr

theorem C10_strip_both_ends_witness :
    validMsg spMsg ∧
    (∃ bs m2, encode spMsg = .ok bs ∧ decode bs = .ok m2 ∧
      m2.order_token = stripCp spMsg.order_token ∧
      m2.stock_symbol = stripCp spMsg.stock_symbol ∧
      (∀ t, spMsg.order_token = 0x20 :: t → rstripCp spMsg.order_token ≠ [] →
        m2.order_token ≠ rstripCp spMsg.order_token) ∧
      (∀ t, spMsg.stock_symbol = 0x20 :: t → rstripCp spMsg.stock_symbol ≠ [] →
        m2.stock_symbol ≠ rstripCp spMsg.stock_symbol)) :=
  ⟨by decide, C10_strip_both_ends spMsg (by decide)⟩

end OUCH
